import Mathlib

/-!
# AST-Climber `example.cc`: heap model and verification

A shallow embedding of `src/example.cc`.

* Memory is a list of heap blocks; a pointer is a block index plus an offset.
  `malloc` appends a fresh block of indeterminate bytes (`none`) and is assumed
  to succeed (the source never checks its result).  Every access is checked:
  a dangling, freed or out-of-range access is a `Fault`.
* Every heap operation is logged in `State.trace`, so that allocation
  discipline and bounds can be stated on the log independently of the checks.
* `int` is 32 bits wide and wraps around: arithmetic is reduced with `wrapInt`
  (the language leaves signed overflow undefined; this is what compiled code does).
* Loops whose exit depends on data take a fuel argument; `Fault.outOfFuel`
  means the bound was reached before the loop left.
-/

namespace ASTClimber

/-! ## Machine integers -/

def INT_MIN : Int := -2147483648

def INT_MAX : Int := 2147483647

/-- The values an `int` can hold. -/
def isInt (x : Int) : Prop := INT_MIN ≤ x ∧ x ≤ INT_MAX

instance (x : Int) : Decidable (isInt x) := by
  unfold isInt; exact inferInstance

/-- Reduction of a mathematical integer into the `int` range (modulo 2^32). -/
def wrapInt (x : Int) : Int := (x + 2147483648) % 4294967296 - 2147483648

/-- Source `add`: `return a+b+c;`, evaluated left to right in `int`. -/
def add (a b c : Int) : Int := wrapInt (wrapInt (a + b) + c)

/-! ## Heap, streams and the event log -/

/-- A `char*` value: the allocation it points into and the byte offset inside it. -/
structure Ptr where
  block : Nat
  off : Nat
  deriving DecidableEq, Repr

/-- One allocation: whether it is still live, and its bytes (`none` = indeterminate). -/
structure Block where
  live : Bool
  data : List (Option Nat)
  deriving DecidableEq, Repr

/-- What the heap log records. Ranges are `off`, `len` in bytes inside allocation `id`. -/
inductive Event where
  | alloc (id size : Nat)
  | read (id off len : Nat)
  | write (id off len : Nat)
  | free (id : Nat)
  deriving DecidableEq, Repr

inductive Fault where
  | invalidPointer
  | useAfterFree
  | outOfBounds
  | invalidFree
  | outOfFuel
  deriving DecidableEq, Repr

structure State where
  heap : List Block
  globalVar : Option Ptr
  stdin : List Nat
  stdout : String
  trace : List Event
  deriving DecidableEq, Repr

/-- Program start: nothing allocated, `globalVar` null, nothing printed, `input` waiting on standard input. -/
def State.init (input : List Nat) : State :=
  { heap := [], globalVar := none, stdin := input, stdout := "", trace := [] }

/-! ## Library primitives -/

/-- Overwrite `d` from index `start` on with the elements of a list, one `set` per element. -/
def writeBytes {α : Type} (d : List α) (start : Nat) : List α → List α
  | [] => d
  | x :: xs => writeBytes (d.set start x) (start + 1) xs

/-- The block `p` points into, provided `len` bytes from `p` on are accessible. -/
def access (p : Ptr) (len : Nat) (s : State) : Except Fault Block :=
  match s.heap[p.block]? with
  | none => .error .invalidPointer
  | some b =>
    if b.live = false then .error .useAfterFree
    else if p.off + len ≤ b.data.length then .ok b
    else .error .outOfBounds

/-- Library `malloc(n)`: a fresh live block of `n` indeterminate bytes. -/
def malloc (n : Nat) (s : State) : Ptr × State :=
  (⟨s.heap.length, 0⟩,
   { s with heap := s.heap ++ [⟨true, List.replicate n none⟩],
            trace := s.trace ++ [Event.alloc s.heap.length n] })

/-- Library `free(p)`: `p` must be the start of a live block. -/
def free (p : Ptr) (s : State) : Except Fault State :=
  match s.heap[p.block]? with
  | none => .error .invalidPointer
  | some b =>
    if b.live = false then .error .useAfterFree
    else if p.off ≠ 0 then .error .invalidFree
    else .ok { s with heap := s.heap.set p.block { b with live := false },
                      trace := s.trace ++ [Event.free p.block] }

/-- Assignment `p[i] = v`. -/
def store (p : Ptr) (i : Nat) (v : Nat) (s : State) : Except Fault State :=
  match access ⟨p.block, p.off + i⟩ 1 s with
  | .error e => .error e
  | .ok b =>
    .ok { s with heap := s.heap.set p.block { b with data := b.data.set (p.off + i) (some v) },
                 trace := s.trace ++ [Event.write p.block (p.off + i) 1] }

/-- Value of `p[i]`: `none` when the byte is inaccessible or indeterminate. -/
def load (p : Ptr) (i : Nat) (s : State) : Option Nat :=
  match access ⟨p.block, p.off + i⟩ 1 s with
  | .error _ => none
  | .ok b => (b.data[p.off + i]?).join

/-- Library `memcpy(dst, src, n)`. -/
def memcpy (dst src : Ptr) (n : Nat) (s : State) : Except Fault State :=
  match access src n s with
  | .error e => .error e
  | .ok bs =>
    match access dst n s with
    | .error e => .error e
    | .ok bd =>
      .ok { s with heap := s.heap.set dst.block
                     { bd with data := writeBytes bd.data dst.off ((bs.data.drop src.off).take n) },
                   trace := s.trace ++ [Event.read src.block src.off n,
                                        Event.write dst.block dst.off n] }

/-- The bytes of a string literal, terminator included. -/
def cstring (lit : String) : List Nat := lit.toList.map Char.toNat ++ [0]

/-- Library `strcpy(dst, lit)` for a string literal `lit`. -/
def strcpy (dst : Ptr) (lit : String) (s : State) : Except Fault State :=
  match access dst (cstring lit).length s with
  | .error e => .error e
  | .ok bd =>
    .ok { s with heap := s.heap.set dst.block
                   { bd with data := writeBytes bd.data dst.off ((cstring lit).map some) },
                 trace := s.trace ++ [Event.write dst.block dst.off (cstring lit).length] }

/-- Library `printf(lit)` for a literal without conversion specifications. -/
def printf (lit : String) (s : State) : State :=
  { s with stdout := s.stdout ++ lit }

/-- The characters `fgets` takes from the stream: at most `k`, stopping after a newline.
Returns them with the rest of the stream. -/
def takeLine : Nat → List Nat → List Nat × List Nat
  | 0, rest => ([], rest)
  | _ + 1, [] => ([], [])
  | k + 1, c :: rest =>
    if c = 10 then ([c], rest)
    else ((c :: (takeLine k rest).1), (takeLine k rest).2)

/-- Library `fgets(p, n, stdin)`. The flag is `false` for a `NULL` result: end of input before any
character was read, the buffer being left as it was. -/
def fgets (p : Ptr) (n : Nat) (s : State) : Except Fault (Bool × State) :=
  if n = 0 then .ok (false, s)
  else
    match s.stdin with
    | [] => .ok (false, s)
    | c :: cs =>
      let line := (takeLine (n - 1) (c :: cs)).1
      let rest := (takeLine (n - 1) (c :: cs)).2
      match access p (line.length + 1) s with
      | .error e => .error e
      | .ok b =>
        let bytes := line.map some ++ [some 0]
        .ok (true,
          { s with heap := s.heap.set p.block { b with data := writeBytes b.data p.off bytes },
                   stdin := rest,
                   trace := s.trace ++ [Event.write p.block p.off (line.length + 1)] })

/-! ## The program -/

/-- The loop of `zero_out_memory`, entered with counter `i`:
`for(...; i < 100; i++) G[i] = 0;`. -/
def zero_out_memory_from (G : Ptr) (i : Nat) (s : State) : Except Fault State :=
  if i < 100 then
    match store G i 0 s with
    | .error e => .error e
    | .ok s1 => zero_out_memory_from G (i + 1) s1
  else .ok s
termination_by 100 - i
decreasing_by omega

/-- Source `zero_out_memory(G)`. -/
def zero_out_memory (G : Ptr) (s : State) : Except Fault State :=
  zero_out_memory_from G 0 s

def nonSensitive : String := "Non-sensitive data"

def fgetsFailed : String := "fgets() failed"

/-- Source `copy_process(Y)`. -/
def copy_process (Y : Ptr) (s : State) : Except Fault State := do
  let (Y_deepcp, s) := malloc 100 s
  let s ← memcpy Y_deepcp Y 100 s
  let (other, s) := malloc 99 s
  let s ← strcpy other nonSensitive s
  let s ← free Y_deepcp s
  free other s

/-- Lines 27 to 37 of `CWE244_dummy`: everything before its closing `free(X)`. Returns `X`
with the state, for `CWE244_dummy` to free it. -/
def CWE244_dummy_body (s : State) : Except Fault (Ptr × State) := do
  let (X, s) := malloc 100 s
  let X_shallowcp := X
  let X_shallowcp2 := X
  let _X_shallowcp3 := X_shallowcp2
  let (ok, s) ← fgets X 100 s
  let s ← if ok = false then store X 0 0 (printf fgetsFailed s) else pure s
  let s ← copy_process X_shallowcp s
  let s ← zero_out_memory X s
  pure (X, s)

/-- Source `CWE244_dummy()`: the body above, then `free(X)`. -/
def CWE244_dummy (s : State) : Except Fault State := do
  let (X, s) ← CWE244_dummy_body s
  free X s

/-- Which bodies of the control constructs of `main` were entered, in order. -/
inductive Mark where
  | ifThen
  | ifElse
  | whileBody
  | doBody
  | forBody
  | case0
  | case1
  | caseDefault
  deriving DecidableEq, Repr

/-- The locals `d`, `e`, `f` of `main`, with the log of bodies entered. -/
structure Frame where
  d : Int
  e : Int
  f : Int
  marks : List Mark
  deriving DecidableEq, Repr

/-- Loop `while(add(d,e,f)) { d = 0; }`. -/
def main_while : Nat → Frame → Except Fault Frame
  | 0, _ => .error .outOfFuel
  | fuel + 1, fr =>
    if add fr.d fr.e fr.f ≠ 0 then
      main_while fuel { fr with d := 0, marks := fr.marks ++ [Mark.whileBody] }
    else .ok fr

/-- Loop `do { e = 0; } while (add(d,e,f));`. -/
def main_doWhile : Nat → Frame → Except Fault Frame
  | 0, _ => .error .outOfFuel
  | fuel + 1, fr =>
    let fr1 : Frame := { fr with e := 0, marks := fr.marks ++ [Mark.doBody] }
    if add fr1.d fr1.e fr1.f ≠ 0 then main_doWhile fuel fr1 else .ok fr1

/-- Loop `for(...; d < add(d,e,f); d++) { f = 0; }`, after its initialisation. -/
def main_for : Nat → Frame → Except Fault Frame
  | 0, _ => .error .outOfFuel
  | fuel + 1, fr =>
    if fr.d < add fr.d fr.e fr.f then
      main_for fuel { fr with f := 0, d := wrapInt (fr.d + 1), marks := fr.marks ++ [Mark.forBody] }
    else .ok fr

/-- Statement `switch(add(d,e,f))` with its three empty cases. -/
def main_switch (fr : Frame) : Frame :=
  if add fr.d fr.e fr.f = 0 then { fr with marks := fr.marks ++ [Mark.case0] }
  else if add fr.d fr.e fr.f = 1 then { fr with marks := fr.marks ++ [Mark.case1] }
  else { fr with marks := fr.marks ++ [Mark.caseDefault] }

/-- Lines 51 to 84 of `main`: the locals and the five control constructs; returns the
exit status with the final frame. -/
def main_control (fuel : Nat) : Except Fault (Int × Frame) := do
  let fr : Frame := { d := 0, e := 0, f := 0, marks := [] }
  let fr : Frame :=
    if add fr.d 2 fr.f ≠ 0 then { fr with d := fr.e, marks := fr.marks ++ [Mark.ifThen] }
    else { fr with d := fr.f, marks := fr.marks ++ [Mark.ifElse] }
  let fr ← main_while fuel fr
  let fr ← main_doWhile fuel fr
  let fr ← main_for fuel { fr with d := 0 }
  let fr := main_switch fr
  pure (0, fr)

/-- What a run of `main` leaves behind. -/
structure Outcome where
  status : Int
  frame : Frame
  final : State
  deriving DecidableEq, Repr

/-- Source `main`, on the state `s` the process starts in. -/
def main (fuel : Nat) (s : State) : Except Fault Outcome := do
  let (g, s) := malloc 100 s
  let s := { s with globalVar := some g }
  let s ← CWE244_dummy s
  let s ← match s.globalVar with
    | none => pure s
    | some p => free p s
  let (status, fr) ← main_control fuel
  pure { status := status, frame := fr, final := s }

/-! ## States and logs the program is shown to produce -/

/-- The log of the zeroing loop run from counter `i` for `k` more rounds. -/
def zeroEvents (G : Ptr) (i k : Nat) : List Event :=
  (List.range' i k).map (fun j => Event.write G.block (G.off + j) 1)

/-- The bytes of the literal buffer `other` when it is freed. -/
def otherData : List (Option Nat) :=
  writeBytes (List.replicate 99 none) 0 ((cstring nonSensitive).map some)

/-- The log of one call `copy_process(Y)` made when `n` blocks had been allocated. -/
def copyEvents (n : Nat) (Y : Ptr) : List Event :=
  [Event.alloc n 100, Event.read Y.block Y.off 100, Event.write n 0 100,
   Event.alloc (n + 1) 99, Event.write (n + 1) 0 19, Event.free n, Event.free (n + 1)]

/-- The characters one call `fgets(X, 100, stdin)` takes from `input`. -/
def lineOf (input : List Nat) : List Nat := (takeLine 99 input).1

/-- The bytes of `X` after the read (or after `X[0] = 0` when the read failed). -/
def bufferAfterRead : List Nat → List (Option Nat)
  | [] => (List.replicate 100 none).set 0 (some 0)
  | c :: cs => writeBytes (List.replicate 100 none) 0 ((lineOf (c :: cs)).map some ++ [some 0])

/-- The one write into `X` (block `n`) that the read, or its failure branch, makes. -/
def readEvents (n : Nat) : List Nat → List Event
  | [] => [Event.write n 0 1]
  | c :: cs => [Event.write n 0 ((lineOf (c :: cs)).length + 1)]

/-- What is left on standard input after the read. -/
def inputAfterRead : List Nat → List Nat
  | [] => []
  | c :: cs => (takeLine 99 (c :: cs)).2

/-- What the read adds to standard output. -/
def outputOfRead : List Nat → String
  | [] => fgetsFailed
  | _ :: _ => ""

/-- The state in which `CWE244_dummy` reaches its `free(X)`. -/
def stateBeforeFree (s : State) : State :=
  { s with
    heap := s.heap ++ [⟨true, List.replicate 100 (some 0)⟩,
                       ⟨false, bufferAfterRead s.stdin⟩, ⟨false, otherData⟩],
    stdin := inputAfterRead s.stdin,
    stdout := s.stdout ++ outputOfRead s.stdin,
    trace := s.trace ++ [Event.alloc s.heap.length 100] ++ readEvents s.heap.length s.stdin
      ++ copyEvents (s.heap.length + 1) ⟨s.heap.length, 0⟩
      ++ zeroEvents ⟨s.heap.length, 0⟩ 0 100 }

/-- The state `CWE244_dummy` returns in. -/
def stateAfterDummy (s : State) : State :=
  { stateBeforeFree s with
    heap := s.heap ++ [⟨false, List.replicate 100 (some 0)⟩,
                       ⟨false, bufferAfterRead s.stdin⟩, ⟨false, otherData⟩],
    trace := (stateBeforeFree s).trace ++ [Event.free s.heap.length] }

/-- The frame `main` returns with. -/
def finalFrame : Frame :=
  { d := 0, e := 0, f := 0, marks := [Mark.ifThen, Mark.doBody, Mark.case0] }

/-- The heap log of a whole run on `input`. -/
def runTrace (input : List Nat) : List Event :=
  [Event.alloc 0 100, Event.alloc 1 100] ++ readEvents 1 input ++ copyEvents 2 ⟨1, 0⟩
    ++ zeroEvents ⟨1, 0⟩ 0 100 ++ [Event.free 1, Event.free 0]

/-- The state a whole run on `input` ends in. -/
def finalState (input : List Nat) : State :=
  { heap := [⟨false, List.replicate 100 none⟩, ⟨false, List.replicate 100 (some 0)⟩,
             ⟨false, bufferAfterRead input⟩, ⟨false, otherData⟩],
    globalVar := some ⟨0, 0⟩,
    stdin := inputAfterRead input,
    stdout := outputOfRead input,
    trace := runTrace input }

/-- The log of a whole run in which the read wrote `k` bytes. -/
def traceWith (k : Nat) : List Event :=
  [Event.alloc 0 100, Event.alloc 1 100, Event.write 1 0 k,
   Event.alloc 2 100, Event.read 1 0 100, Event.write 2 0 100,
   Event.alloc 3 99, Event.write 3 0 19, Event.free 2, Event.free 3]
  ++ (List.range 100).map (fun j => Event.write 1 j 1) ++ [Event.free 1, Event.free 0]

/-! ## Predicates on states and logs -/

/-- The indices of the live blocks of a heap whose first block has index `n`. -/
def liveFrom : Nat → List Block → List Nat
  | _, [] => []
  | n, b :: t => if b.live = true then n :: liveFrom (n + 1) t else liveFrom (n + 1) t

/-- The live allocations of a state. -/
def liveBlocks (s : State) : List Nat := liveFrom 0 s.heap

/-- Whether the event goes through a pointer into block `n` (an access or a `free`). -/
def Event.uses : Event → Nat → Bool
  | .alloc _ _, _ => false
  | .read id _ _, n => id == n
  | .write id _ _, n => id == n
  | .free id, n => id == n

/-- No block is read, written or freed again once it has been freed. -/
def noUseAfterFree : List Event → Bool
  | [] => true
  | Event.free id :: rest => rest.all (fun e => !e.uses id) && noUseAfterFree rest
  | _ :: rest => noUseAfterFree rest

/-- The allocations of a log, as pairs of block index and size, in order. -/
def allocations : List Event → List (Nat × Nat)
  | [] => []
  | Event.alloc id n :: rest => (id, n) :: allocations rest
  | _ :: rest => allocations rest

/-- How many times block `id` is freed in a log. -/
def freeCount (t : List Event) (id : Nat) : Nat := t.count (Event.free id)

/-- The size block `id` was allocated with, by the log. -/
def allocSize (t : List Event) (id : Nat) : Option Nat := (allocations t).lookup id

/-- Whether an access lies inside the block it goes to, sizes taken from the log `t`. -/
def Event.inBounds (t : List Event) : Event → Bool
  | .alloc _ _ => true
  | .free _ => true
  | .read id off len =>
    match allocSize t id with
    | some n => decide (off + len ≤ n)
    | none => false
  | .write id off len =>
    match allocSize t id with
    | some n => decide (off + len ≤ n)
    | none => false

/-- Every access of the log lies inside its block. -/
def allInBounds (t : List Event) : Bool := t.all (Event.inBounds t)

/-! ## Concrete inputs -/

/-- A live 100-byte buffer holding the bytes 65, 66, ..., 164. -/
def sampleBlock : Block := ⟨true, (List.range 100).map (fun i => some (i + 65))⟩

/-- A state whose heap is `sampleBlock` alone, with some input waiting. -/
def sampleState : State :=
  { heap := [sampleBlock], globalVar := none, stdin := [104, 105, 10], stdout := "", trace := [] }

/-- The input line `hello` with its newline. -/
def helloLine : List Nat := [104, 101, 108, 108, 111, 10]

/-! ## Lists: lookups and updates at the end of a heap -/

theorem bind_ok {ε α β : Type} (a : α) (f : α → Except ε β) :
    (Except.ok a >>= f) = f a := rfl

theorem set_same_of_getElem? {α : Type} (l : List α) (i : Nat) (a : α)
    (h : l[i]? = some a) : l.set i a = l := by
  apply List.ext_getElem?
  intro j
  rw [List.getElem?_set]
  by_cases hij : i = j
  · subst hij
    have hlt : i < l.length := (List.getElem?_eq_some.mp h).1
    simp [hlt, h]
  · simp [hij]

theorem lt_length_of_getElem? {α : Type} {l : List α} {i : Nat} {a : α}
    (h : l[i]? = some a) : i < l.length :=
  (List.getElem?_eq_some.mp h).1

theorem getElem?_append_cons_length {α : Type} (h : List α) (b : α) (t : List α) :
    (h ++ b :: t)[h.length]? = some b := by
  rw [List.getElem?_append_right (Nat.le_refl _)]
  simp

theorem getElem?_append_cons_succ {α : Type} (h : List α) (b : α) (t : List α) (k : Nat) :
    (h ++ b :: t)[h.length + (k + 1)]? = t[k]? := by
  rw [List.getElem?_append_right (Nat.le_add_right _ _)]
  simp

theorem set_append_cons_length {α : Type} (h : List α) (b x : α) (t : List α) :
    (h ++ b :: t).set h.length x = h ++ x :: t := by
  rw [List.set_append]
  simp

theorem set_append_cons_succ {α : Type} (h : List α) (b x : α) (t : List α) (k : Nat) :
    (h ++ b :: t).set (h.length + (k + 1)) x = h ++ b :: t.set k x := by
  rw [List.set_append]
  simp

/-! ## Facts about `writeBytes` -/

theorem length_writeBytes {α : Type} (l : List α) :
    ∀ (d : List α) (st : Nat), (writeBytes d st l).length = d.length := by
  induction l with
  | nil => intro d st; rfl
  | cons x xs ih => intro d st; simp [writeBytes, ih]

theorem getElem?_writeBytes {α : Type} (l : List α) :
    ∀ (d : List α) (st j : Nat), st + l.length ≤ d.length →
      (writeBytes d st l)[j]? = if st ≤ j ∧ j < st + l.length then l[j - st]? else d[j]? := by
  induction l with
  | nil =>
    intro d st j _
    have h0 : ¬ (st ≤ j ∧ j < st) := by omega
    simp [writeBytes, h0]
  | cons x xs ih =>
    intro d st j hlen
    simp only [List.length_cons] at hlen
    simp only [writeBytes, List.length_cons]
    rw [ih (d.set st x) (st + 1) j (by simp; omega)]
    by_cases h1 : st + 1 ≤ j
    · by_cases h2 : j < st + 1 + xs.length
      · have h3 : st ≤ j ∧ j < st + (xs.length + 1) := by omega
        have h4 : j - st = (j - (st + 1)) + 1 := by omega
        simp [h1, h2, h3, h4]
      · have h3 : ¬ (st ≤ j ∧ j < st + (xs.length + 1)) := by omega
        have h4 : ¬ (st + 1 ≤ j ∧ j < st + 1 + xs.length) := by omega
        have h5 : st ≠ j := by omega
        simp [h3, h4, List.getElem?_set, h5]
    · have h4 : ¬ (st + 1 ≤ j ∧ j < st + 1 + xs.length) := by omega
      by_cases h5 : st = j
      · subst h5
        have h6 : st < d.length := by omega
        simp [h4, List.getElem?_set, h6]
      · have h3 : ¬ (st ≤ j ∧ j < st + (xs.length + 1)) := by omega
        simp [h3, h4, List.getElem?_set, h5]

/-- Writing a whole buffer over replaces it. -/
theorem writeBytes_full {α : Type} (d l : List α) (h : l.length = d.length) :
    writeBytes d 0 l = l := by
  apply List.ext_getElem?
  intro j
  rw [getElem?_writeBytes l d 0 j (by omega)]
  by_cases hj : j < l.length
  · simp [hj]
  · have h1 : l[j]? = none := by simp; omega
    have h2 : d[j]? = none := by simp; omega
    simp [hj, h1, h2]

/-! ## Heap operations on a valid pointer -/

theorem access_ok {p : Ptr} {len : Nat} {s : State} {b : Block}
    (h : s.heap[p.block]? = some b) (hl : b.live = true)
    (hb : p.off + len ≤ b.data.length) : access p len s = .ok b := by
  simp [access, h, hl, hb]

theorem store_ok {p : Ptr} {i v : Nat} {s : State} {b : Block}
    (h : s.heap[p.block]? = some b) (hl : b.live = true)
    (hb : p.off + i < b.data.length) :
    store p i v s =
      .ok { s with heap := s.heap.set p.block { b with data := b.data.set (p.off + i) (some v) },
                   trace := s.trace ++ [Event.write p.block (p.off + i) 1] } := by
  have ha : access ⟨p.block, p.off + i⟩ 1 s = .ok b := access_ok h hl (by simpa using hb)
  simp [store, ha]

theorem free_ok {p : Ptr} {s : State} {b : Block}
    (h : s.heap[p.block]? = some b) (hl : b.live = true) (h0 : p.off = 0) :
    free p s =
      .ok { s with heap := s.heap.set p.block { b with live := false },
                   trace := s.trace ++ [Event.free p.block] } := by
  simp [free, h, hl, h0]

theorem memcpy_ok {dst src : Ptr} {n : Nat} {s : State} (bs bd : Block)
    (hs : s.heap[src.block]? = some bs) (hsl : bs.live = true)
    (hsb : src.off + n ≤ bs.data.length)
    (hd : s.heap[dst.block]? = some bd) (hdl : bd.live = true)
    (hdb : dst.off + n ≤ bd.data.length) :
    memcpy dst src n s =
      .ok { s with heap := s.heap.set dst.block
                     { bd with data := writeBytes bd.data dst.off ((bs.data.drop src.off).take n) },
                   trace := s.trace ++ [Event.read src.block src.off n,
                                        Event.write dst.block dst.off n] } := by
  simp [memcpy, access_ok hs hsl hsb, access_ok hd hdl hdb]

theorem strcpy_ok {dst : Ptr} {lit : String} {s : State} (bd : Block)
    (hd : s.heap[dst.block]? = some bd) (hdl : bd.live = true)
    (hdb : dst.off + (cstring lit).length ≤ bd.data.length) :
    strcpy dst lit s =
      .ok { s with heap := s.heap.set dst.block
                     { bd with data := writeBytes bd.data dst.off ((cstring lit).map some) },
                   trace := s.trace ++ [Event.write dst.block dst.off (cstring lit).length] } := by
  simp [strcpy, access_ok hd hdl hdb]

/-! ## The zeroing loop -/

theorem zero_out_memory_from_ok (G : Ptr) :
    ∀ (k i : Nat) (s : State) (b : Block), i + k = 100 →
      s.heap[G.block]? = some b → b.live = true → G.off + 100 ≤ b.data.length →
      zero_out_memory_from G i s =
        .ok { s with heap := s.heap.set G.block
                       { b with data := writeBytes b.data (G.off + i) (List.replicate k (some 0)) },
                     trace := s.trace ++ zeroEvents G i k } := by
  intro k
  induction k with
  | zero =>
    intro i s b hik h hl hb
    have hi : ¬ i < 100 := by omega
    rw [zero_out_memory_from]
    simp [hi, writeBytes, zeroEvents, set_same_of_getElem? _ _ _ h]
  | succ k ih =>
    intro i s b hik h hl hb
    have hi : i < 100 := by omega
    rw [zero_out_memory_from]
    simp only [hi, if_true]
    rw [store_ok h hl (by omega)]
    simp only []
    rw [ih (i + 1) _ { b with data := b.data.set (G.off + i) (some 0) } (by omega)
      (by simp [List.getElem?_set_self (lt_length_of_getElem? h)]) hl (by simp; omega)]
    simp [List.set_set, writeBytes, List.replicate_succ, zeroEvents, List.range'_succ,
      Nat.add_assoc]

theorem zero_out_memory_ok (G : Ptr) (s : State) (b : Block)
    (h : s.heap[G.block]? = some b) (hl : b.live = true) (hb : G.off + 100 ≤ b.data.length) :
    zero_out_memory G s =
      .ok { s with heap := s.heap.set G.block
                     { b with data := writeBytes b.data G.off (List.replicate 100 (some 0)) },
                   trace := s.trace ++ zeroEvents G 0 100 } := by
  rw [zero_out_memory, zero_out_memory_from_ok G 100 0 s b rfl h hl hb]
  simp

theorem getElem?_append_cons_one {α : Type} (h : List α) (b c : α) (t : List α) :
    (h ++ b :: c :: t)[h.length + 1]? = some c := by
  rw [getElem?_append_cons_succ h b (c :: t) 0]
  simp

theorem set_append_cons_one {α : Type} (h : List α) (b c x : α) (t : List α) :
    (h ++ b :: c :: t).set (h.length + 1) x = h ++ b :: x :: t := by
  rw [set_append_cons_succ h b x (c :: t) 0]
  rfl

/-! ## The duplication routine -/

theorem length_cstring_nonSensitive : (cstring nonSensitive).length = 19 := by decide

theorem copy_process_ok (Y : Ptr) (s : State) (b : Block)
    (h : s.heap[Y.block]? = some b) (hl : b.live = true) (hb : Y.off + 100 ≤ b.data.length) :
    copy_process Y s =
      .ok { s with heap := s.heap ++ [⟨false, (b.data.drop Y.off).take 100⟩, ⟨false, otherData⟩],
                   trace := s.trace ++ copyEvents s.heap.length Y } := by
  have hlt : Y.block < s.heap.length := lt_length_of_getElem? h
  have hcopy : writeBytes (List.replicate 100 (none : Option Nat)) 0
      ((b.data.drop Y.off).take 100) = (b.data.drop Y.off).take 100 :=
    writeBytes_full _ _ (by
      simp only [List.length_take, List.length_drop, List.length_replicate]; omega)
  simp only [copy_process, malloc]
  rw [memcpy_ok b ⟨true, List.replicate 100 none⟩
    (by show (s.heap ++ [_])[Y.block]? = some b
        rw [List.getElem?_append_left hlt]; exact h) hl hb
    (getElem?_append_cons_length _ _ _) rfl
    (by simp only [List.length_replicate]; omega)]
  simp only [bind_ok, set_append_cons_length, hcopy, List.length_append, List.length_cons,
    List.length_nil, List.append_assoc, List.cons_append, List.nil_append]
  rw [strcpy_ok ⟨true, List.replicate 99 none⟩
    (getElem?_append_cons_one _ _ _ _) rfl
    (by simp only [List.length_replicate, length_cstring_nonSensitive]; omega)]
  simp only [bind_ok, set_append_cons_one]
  rw [free_ok (b := ⟨true, (b.data.drop Y.off).take 100⟩)
    (getElem?_append_cons_length _ _ _) rfl rfl]
  simp only [bind_ok, set_append_cons_length]
  rw [free_ok (b := ⟨true, otherData⟩)
    (getElem?_append_cons_one _ _ _ _) rfl rfl]
  simp only [set_append_cons_one, copyEvents, length_cstring_nonSensitive, List.append_assoc,
    List.cons_append, List.nil_append]

/-! ## The line read -/

theorem takeLine_length_le : ∀ (k : Nat) (l : List Nat), (takeLine k l).1.length ≤ k := by
  intro k
  induction k with
  | zero => intro l; simp [takeLine]
  | succ k ih =>
    intro l
    cases l with
    | nil => simp [takeLine]
    | cons c rest =>
      simp only [takeLine]
      split
      · simp
      · simp only [List.length_cons]
        have := ih rest
        omega

theorem fgets_eof (p : Ptr) (n : Nat) (s : State) (h : s.stdin = []) :
    fgets p n s = .ok (false, s) := by
  simp [fgets, h]

theorem length_lineOf_le (input : List Nat) : (lineOf input).length ≤ 99 :=
  takeLine_length_le 99 input

theorem fgets_line (p : Ptr) (s : State) (b : Block) (c : Nat) (cs : List Nat)
    (hin : s.stdin = c :: cs)
    (h : s.heap[p.block]? = some b) (hl : b.live = true) (hb : p.off + 100 ≤ b.data.length) :
    fgets p 100 s =
      .ok (true,
        { s with heap := s.heap.set p.block
                   { b with data := writeBytes b.data p.off ((lineOf (c :: cs)).map some ++ [some 0]) },
                 stdin := (takeLine 99 (c :: cs)).2,
                 trace := s.trace ++ [Event.write p.block p.off ((lineOf (c :: cs)).length + 1)] }) := by
  have hlen := length_lineOf_le (c :: cs)
  have ha : access p ((takeLine 99 (c :: cs)).1.length + 1) s = .ok b :=
    access_ok h hl (by unfold lineOf at hlen; omega)
  simp [fgets, hin, ha, lineOf]

/-! ## The driver -/

theorem length_bufferAfterRead (input : List Nat) : (bufferAfterRead input).length = 100 := by
  cases input with
  | nil => simp [bufferAfterRead]
  | cons c cs => simp [bufferAfterRead, length_writeBytes]

theorem take_drop_bufferAfterRead (input : List Nat) :
    ((bufferAfterRead input).drop 0).take 100 = bufferAfterRead input := by
  rw [List.drop_zero]
  exact List.take_of_length_le (by rw [length_bufferAfterRead])

/-- The tail of `CWE244_dummy` once `X` holds `bufferAfterRead`. -/
theorem copy_then_zero (h0 : List Block) (input : List Nat) (g : Option Ptr) (i : List Nat)
    (o : String) (tr : List Event) :
    (do
      let s ← copy_process ⟨h0.length, 0⟩
        { heap := h0 ++ [⟨true, bufferAfterRead input⟩], globalVar := g, stdin := i,
          stdout := o, trace := tr }
      let s ← zero_out_memory ⟨h0.length, 0⟩ s
      pure ((⟨h0.length, 0⟩ : Ptr), s)) =
    (.ok (⟨h0.length, 0⟩,
      { heap := h0 ++ [⟨true, List.replicate 100 (some 0)⟩,
                       ⟨false, bufferAfterRead input⟩, ⟨false, otherData⟩],
        globalVar := g, stdin := i, stdout := o,
        trace := tr ++ copyEvents (h0.length + 1) ⟨h0.length, 0⟩
          ++ zeroEvents ⟨h0.length, 0⟩ 0 100 }) : Except Fault (Ptr × State)) := by
  rw [copy_process_ok _ _ ⟨true, bufferAfterRead input⟩
    (getElem?_append_cons_length _ _ _) rfl
    (by simp only [length_bufferAfterRead]; omega)]
  simp only [bind_ok, take_drop_bufferAfterRead, List.length_append, List.length_cons,
    List.length_nil, List.append_assoc, List.cons_append, List.nil_append]
  rw [zero_out_memory_ok _ _ ⟨true, bufferAfterRead input⟩
    (getElem?_append_cons_length _ _ _) rfl
    (by simp only [length_bufferAfterRead]; omega)]
  simp only [bind_ok, set_append_cons_length]
  rw [writeBytes_full _ _ (by simp only [List.length_replicate, length_bufferAfterRead])]
  simp only [List.append_assoc, Nat.zero_add]
  rfl

theorem CWE244_dummy_body_ok (s : State) :
    CWE244_dummy_body s = .ok (⟨s.heap.length, 0⟩, stateBeforeFree s) := by
  obtain ⟨h0, g, input, o, tr⟩ := s
  cases input with
  | nil =>
    simp only [CWE244_dummy_body, malloc]
    rw [fgets_eof _ _ _ rfl]
    simp only [bind_ok, if_true]
    rw [store_ok (b := ⟨true, List.replicate 100 none⟩)
      (getElem?_append_cons_length _ _ _) rfl (by simp only [List.length_replicate]; omega)]
    simp only [bind_ok, printf, set_append_cons_length, Nat.add_zero]
    have := copy_then_zero h0 [] g [] (o ++ fgetsFailed)
      (tr ++ [Event.alloc h0.length 100] ++ [Event.write h0.length 0 1])
    simp only [bufferAfterRead] at this
    rw [this]
    simp only [stateBeforeFree, bufferAfterRead, readEvents, inputAfterRead, outputOfRead]
  | cons c cs =>
    simp only [CWE244_dummy_body, malloc]
    rw [fgets_line _ _ ⟨true, List.replicate 100 none⟩ c cs rfl
      (getElem?_append_cons_length _ _ _) rfl (by simp only [List.length_replicate]; omega)]
    simp only [bind_ok, set_append_cons_length, Bool.true_eq_false, if_false]
    have := copy_then_zero h0 (c :: cs) g (takeLine 99 (c :: cs)).2 o
      (tr ++ [Event.alloc h0.length 100] ++
        [Event.write h0.length 0 ((lineOf (c :: cs)).length + 1)])
    simp only [bufferAfterRead] at this
    simp only [pure_bind]
    rw [this]
    simp only [stateBeforeFree, bufferAfterRead, readEvents, inputAfterRead, outputOfRead,
      String.append_empty]

theorem free_stateBeforeFree (s : State) :
    free ⟨s.heap.length, 0⟩ (stateBeforeFree s) = .ok (stateAfterDummy s) := by
  rw [free_ok (b := ⟨true, List.replicate 100 (some 0)⟩)
    (getElem?_append_cons_length _ _ _) rfl rfl]
  simp only [stateBeforeFree, stateAfterDummy, set_append_cons_length]

theorem CWE244_dummy_ok (s : State) : CWE244_dummy s = .ok (stateAfterDummy s) := by
  simp only [CWE244_dummy]
  rw [CWE244_dummy_body_ok]
  exact free_stateBeforeFree s

/-! ## The entry point -/

theorem main_control_ok (fuel : Nat) (h : 1 ≤ fuel) : main_control fuel = .ok (0, finalFrame) := by
  obtain ⟨n, rfl⟩ : ∃ n, fuel = n + 1 := ⟨fuel - 1, by omega⟩
  rfl

theorem main_ok (fuel : Nat) (h : 1 ≤ fuel) (input : List Nat) :
    main fuel (State.init input) =
      .ok { status := 0, frame := finalFrame, final := finalState input } := by
  simp only [main, malloc, State.init]
  rw [CWE244_dummy_ok]
  simp only [bind_ok, stateAfterDummy, stateBeforeFree, List.nil_append, List.cons_append,
    List.length_nil, List.length_cons, List.append_assoc, Nat.zero_add]
  rw [free_ok (b := ⟨true, List.replicate 100 none⟩) (by simp) rfl rfl]
  rw [main_control_ok fuel h]
  simp only [bind_ok, finalState, runTrace, List.set_cons_zero, List.nil_append,
    List.cons_append, List.append_assoc, String.empty_append]
  rfl

/-! ## The heap log of a run -/

theorem readEvents_shape (n : Nat) (input : List Nat) :
    ∃ k, 1 ≤ k ∧ k ≤ 100 ∧ readEvents n input = [Event.write n 0 k] := by
  cases input with
  | nil => exact ⟨1, by omega, by omega, rfl⟩
  | cons c cs =>
    have := length_lineOf_le (c :: cs)
    exact ⟨(lineOf (c :: cs)).length + 1, by omega, by omega, rfl⟩

theorem runTrace_eq (input : List Nat) :
    ∃ k, 1 ≤ k ∧ k ≤ 100 ∧ runTrace input = traceWith k := by
  obtain ⟨k, h1, h2, hk⟩ := readEvents_shape 1 input
  refine ⟨k, h1, h2, ?_⟩
  rw [runTrace, hk]
  rfl

theorem discipline_traceWith (k : Nat) :
    allocations (traceWith k) = [(0, 100), (1, 100), (2, 100), (3, 99)] ∧
      freeCount (traceWith k) 0 = 1 ∧ freeCount (traceWith k) 1 = 1 ∧
      freeCount (traceWith k) 2 = 1 ∧ freeCount (traceWith k) 3 = 1 ∧
      noUseAfterFree (traceWith k) = true :=
  ⟨rfl, rfl, rfl, rfl, rfl, rfl⟩

theorem allInBounds_traceWith (k : Nat) (hk : k ≤ 100) : allInBounds (traceWith k) = true := by
  have hf : Event.inBounds (traceWith k) = Event.inBounds (traceWith 0) := by
    funext e
    cases e <;> rfl
  have hsplit : traceWith k =
      [Event.alloc 0 100, Event.alloc 1 100] ++ Event.write 1 0 k :: (traceWith 0).drop 3 := rfl
  have hrest : ((traceWith 0).drop 3).all (Event.inBounds (traceWith 0)) = true := by decide
  have hread : Event.inBounds (traceWith 0) (Event.write 1 0 k) = true := by
    have hsize : allocSize (traceWith 0) 1 = some 100 := by decide
    simp only [Event.inBounds, hsize, decide_eq_true_eq]
    omega
  rw [allInBounds, hf, hsplit, List.all_append, List.all_cons (a := Event.write 1 0 k),
    hread, hrest]
  decide

theorem zeroEvents_base (n : Nat) :
    zeroEvents ⟨n, 0⟩ 0 100 = (List.range 100).map (fun j => Event.write n j 1) := by
  simp only [zeroEvents, List.range_eq_range', Nat.zero_add]

theorem liveFrom_append_dead (d1 d2 : List (Option Nat)) :
    ∀ (h : List Block) (n : Nat),
      liveFrom n (h ++ [⟨false, d1⟩, ⟨false, d2⟩]) = liveFrom n h := by
  intro h
  induction h with
  | nil => intro n; simp [liveFrom]
  | cons b t ih => intro n; simp [liveFrom, ih]

theorem load_append (Y : Ptr) (i : Nat) (s : State) (extra : List Block) (tr : List Event)
    (hlt : Y.block < s.heap.length) :
    load Y i { s with heap := s.heap ++ extra, trace := tr } = load Y i s := by
  simp only [load, access]
  rw [List.getElem?_append_left hlt]

theorem wrapInt_add_wrapInt (x c : Int) : wrapInt (wrapInt x + c) = wrapInt (x + c) := by
  unfold wrapInt
  omega

/-! ## Reading a zeroed byte -/

theorem load_zero_of_block {p : Ptr} {i : Nat} {s : State} {b : Block}
    (h : s.heap[p.block]? = some b) (hl : b.live = true) (hb : p.off + i < b.data.length)
    (hz : b.data[p.off + i]? = some (some 0)) : load p i s = some 0 := by
  have ha : access ⟨p.block, p.off + i⟩ 1 s = .ok b := access_ok h hl (by simpa using hb)
  simp [load, ha, hz]

/-! ## The claims -/

/-- C1: for every live buffer reachable through `G` with at least 100 bytes of arbitrary
contents, `zero_out_memory(G)` returns and afterwards `G[i]` is the zero byte for every
`i < 100`. -/
theorem zero_out_memory_zeroes (G : Ptr) (s : State) (b : Block)
    (h : s.heap[G.block]? = some b) (hl : b.live = true) (hb : G.off + 100 ≤ b.data.length) :
    ∃ s1, zero_out_memory G s = .ok s1 ∧ ∀ i, i < 100 → load G i s1 = some 0 := by
  refine ⟨_, zero_out_memory_ok G s b h hl hb, ?_⟩
  intro i hi
  have hlt : G.block < s.heap.length := lt_length_of_getElem? h
  have hlen : (List.replicate 100 (some (0 : Nat))).length = 100 := List.length_replicate _ _
  have hz : (writeBytes b.data G.off (List.replicate 100 (some (0 : Nat))))[G.off + i]?
      = some (some 0) := by
    rw [getElem?_writeBytes _ _ _ _ (by rw [hlen]; omega)]
    have h1 : G.off ≤ G.off + i ∧
        G.off + i < G.off + (List.replicate 100 (some (0 : Nat))).length := by
      rw [hlen]; omega
    rw [if_pos h1, List.getElem?_replicate]
    have h2 : G.off + i - G.off < 100 := by omega
    rw [if_pos h2]
  have hb2 : G.off + i < (writeBytes b.data G.off (List.replicate 100 (some (0 : Nat)))).length := by
    rw [length_writeBytes]; omega
  refine load_zero_of_block
    (b := ⟨b.live, writeBytes b.data G.off (List.replicate 100 (some 0))⟩) ?_ ?_ ?_ ?_
  · exact List.getElem?_set_self hlt
  · exact hl
  · dsimp only; exact hb2
  · dsimp only; exact hz

/-- C1, at the sample buffer. -/
theorem zero_out_memory_zeroes_witness :
    sampleState.heap[(⟨0, 0⟩ : Ptr).block]? = some sampleBlock ∧ sampleBlock.live = true ∧
      (⟨0, 0⟩ : Ptr).off + 100 ≤ sampleBlock.data.length ∧
      ∃ s1, zero_out_memory ⟨0, 0⟩ sampleState = .ok s1 ∧
        ∀ i, i < 100 → load ⟨0, 0⟩ i s1 = some 0 :=
  ⟨rfl, rfl, by decide,
    zero_out_memory_zeroes ⟨0, 0⟩ sampleState sampleBlock rfl rfl (by decide)⟩

/-- C2, as the code has it: `add(a, b, c)` is always an `int`, and it equals the
mathematical sum `a + b + c` exactly when that sum is itself representable as an `int`. -/
theorem add_exact_iff_representable (a b c : Int) :
    isInt (add a b c) ∧ (add a b c = a + b + c ↔ isInt (a + b + c)) := by
  unfold add
  rw [wrapInt_add_wrapInt]
  unfold wrapInt isInt INT_MIN INT_MAX
  constructor
  · omega
  · constructor
    · intro h; omega
    · intro h; omega

/-- C2 fails as stated: at `a = INT_MAX`, `b = 1`, `c = 0`, all three representable, the
result is `INT_MIN` and not the mathematical sum. -/
theorem add_overflow_counterexample :
    isInt 2147483647 ∧ isInt 1 ∧ isInt 0 ∧
      add 2147483647 1 0 = -2147483648 ∧ add 2147483647 1 0 ≠ 2147483647 + 1 + 0 := by
  decide

/-- C3: on empty standard input `main` returns status 0, standard output is exactly
`fgets() failed`, the failure branch stores into `X[0]` (the first write of the log, and the
zero byte that heads the duplicate taken right after), and the run goes on through the
duplication, the zeroing of all 100 bytes and the four frees. -/
theorem main_on_empty_input (fuel : Nat) (h : 1 ≤ fuel) :
    ∃ o, main fuel (State.init []) = .ok o ∧ o.status = 0 ∧
      o.final.stdout = "fgets() failed" ∧
      o.final.trace =
        [Event.alloc 0 100, Event.alloc 1 100, Event.write 1 0 1,
         Event.alloc 2 100, Event.read 1 0 100, Event.write 2 0 100,
         Event.alloc 3 99, Event.write 3 0 19, Event.free 2, Event.free 3]
        ++ (List.range 100).map (fun j => Event.write 1 j 1)
        ++ [Event.free 1, Event.free 0] ∧
      o.final.heap =
        [⟨false, List.replicate 100 none⟩, ⟨false, List.replicate 100 (some 0)⟩,
         ⟨false, some 0 :: List.replicate 99 none⟩, ⟨false, otherData⟩] :=
  ⟨_, main_ok fuel h [], rfl, rfl, rfl, rfl⟩

/-- C3, with fuel 1. -/
theorem main_on_empty_input_witness :
    1 ≤ 1 ∧ ∃ o, main 1 (State.init []) = .ok o ∧ o.status = 0 ∧
      o.final.stdout = "fgets() failed" ∧
      o.final.trace =
        [Event.alloc 0 100, Event.alloc 1 100, Event.write 1 0 1,
         Event.alloc 2 100, Event.read 1 0 100, Event.write 2 0 100,
         Event.alloc 3 99, Event.write 3 0 19, Event.free 2, Event.free 3]
        ++ (List.range 100).map (fun j => Event.write 1 j 1)
        ++ [Event.free 1, Event.free 0] ∧
      o.final.heap =
        [⟨false, List.replicate 100 none⟩, ⟨false, List.replicate 100 (some 0)⟩,
         ⟨false, some 0 :: List.replicate 99 none⟩, ⟨false, otherData⟩] :=
  ⟨by decide, main_on_empty_input 1 (by decide)⟩

/-- C4: on every non-empty standard input `main` returns status 0 and standard output
stays empty. -/
theorem main_on_nonempty_input (fuel : Nat) (h : 1 ≤ fuel) (input : List Nat)
    (hin : input ≠ []) :
    ∃ o, main fuel (State.init input) = .ok o ∧ o.status = 0 ∧ o.final.stdout = "" := by
  refine ⟨_, main_ok fuel h input, rfl, ?_⟩
  cases input with
  | nil => exact absurd rfl hin
  | cons c cs => rfl

/-- C4, on the line `hello` with fuel 1. -/
theorem main_on_nonempty_input_witness :
    1 ≤ 1 ∧ helloLine ≠ [] ∧
      ∃ o, main 1 (State.init helloLine) = .ok o ∧ o.status = 0 ∧ o.final.stdout = "" :=
  ⟨by decide, by decide, main_on_nonempty_input 1 (by decide) helloLine (by decide)⟩

/-- C5: given fuel for one test of each loop, the control constructs of `main` terminate
with status 0, the result does not depend on the fuel, every construct enters a body at
most once, and the whole of `main` returns status 0 on every input. -/
theorem main_control_terminates (fuel : Nat) (h : 1 ≤ fuel) :
    ∃ fr, main_control fuel = .ok (0, fr) ∧ main_control 1 = .ok (0, fr) ∧
      fr.marks.count Mark.ifThen + fr.marks.count Mark.ifElse ≤ 1 ∧
      fr.marks.count Mark.whileBody ≤ 1 ∧
      fr.marks.count Mark.doBody ≤ 1 ∧
      fr.marks.count Mark.forBody ≤ 1 ∧
      fr.marks.count Mark.case0 + fr.marks.count Mark.case1
        + fr.marks.count Mark.caseDefault ≤ 1 ∧
      ∀ input, ∃ o, main fuel (State.init input) = .ok o ∧ o.status = 0 ∧ o.frame = fr := by
  refine ⟨finalFrame, main_control_ok fuel h, rfl, by decide, by decide, by decide, by decide,
    by decide, ?_⟩
  intro input
  exact ⟨_, main_ok fuel h input, rfl, rfl⟩

/-- C5, with fuel 3. -/
theorem main_control_terminates_witness :
    1 ≤ 3 ∧ ∃ fr, main_control 3 = .ok (0, fr) ∧ main_control 1 = .ok (0, fr) ∧
      fr.marks.count Mark.ifThen + fr.marks.count Mark.ifElse ≤ 1 ∧
      fr.marks.count Mark.whileBody ≤ 1 ∧
      fr.marks.count Mark.doBody ≤ 1 ∧
      fr.marks.count Mark.forBody ≤ 1 ∧
      fr.marks.count Mark.case0 + fr.marks.count Mark.case1
        + fr.marks.count Mark.caseDefault ≤ 1 ∧
      ∀ input, ∃ o, main 3 (State.init input) = .ok o ∧ o.status = 0 ∧ o.frame = fr :=
  ⟨by decide, main_control_terminates 3 (by decide)⟩

/-- C6: for every live source buffer of at least 100 bytes in any heap, `copy_process(Y)`
returns; the 100 bytes of `Y` read as before, standard input and output are untouched,
every block that existed is unchanged, the two blocks it allocated (100 and 99 bytes) are
both freed, and the live allocations are the same as before the call. -/
theorem copy_process_no_net_effect (Y : Ptr) (s : State) (b : Block)
    (h : s.heap[Y.block]? = some b) (hl : b.live = true) (hb : Y.off + 100 ≤ b.data.length) :
    ∃ s1 d1 d2, copy_process Y s = .ok s1 ∧
      (∀ i, i < 100 → load Y i s1 = load Y i s) ∧
      s1.stdout = s.stdout ∧ s1.stdin = s.stdin ∧ s1.globalVar = s.globalVar ∧
      s1.heap = s.heap ++ [⟨false, d1⟩, ⟨false, d2⟩] ∧ d1.length = 100 ∧ d2.length = 99 ∧
      liveBlocks s1 = liveBlocks s ∧
      s1.trace = s.trace ++
        [Event.alloc s.heap.length 100, Event.read Y.block Y.off 100,
         Event.write s.heap.length 0 100, Event.alloc (s.heap.length + 1) 99,
         Event.write (s.heap.length + 1) 0 19,
         Event.free s.heap.length, Event.free (s.heap.length + 1)] := by
  refine ⟨_, (b.data.drop Y.off).take 100, otherData, copy_process_ok Y s b h hl hb, ?_,
    rfl, rfl, rfl, rfl, ?_, ?_, ?_, rfl⟩
  · intro i _
    exact load_append Y i s _ _ (lt_length_of_getElem? h)
  · simp only [List.length_take, List.length_drop]; omega
  · simp only [otherData, length_writeBytes, List.length_replicate]
  · exact liveFrom_append_dead _ _ _ _

/-- C6, on the sample buffer. -/
theorem copy_process_no_net_effect_witness :
    sampleState.heap[(⟨0, 0⟩ : Ptr).block]? = some sampleBlock ∧ sampleBlock.live = true ∧
      (⟨0, 0⟩ : Ptr).off + 100 ≤ sampleBlock.data.length ∧
      ∃ s1 d1 d2, copy_process ⟨0, 0⟩ sampleState = .ok s1 ∧
        (∀ i, i < 100 → load ⟨0, 0⟩ i s1 = load ⟨0, 0⟩ i sampleState) ∧
        s1.stdout = sampleState.stdout ∧ s1.stdin = sampleState.stdin ∧
        s1.globalVar = sampleState.globalVar ∧
        s1.heap = sampleState.heap ++ [⟨false, d1⟩, ⟨false, d2⟩] ∧
        d1.length = 100 ∧ d2.length = 99 ∧
        liveBlocks s1 = liveBlocks sampleState ∧
        s1.trace = sampleState.trace ++
          [Event.alloc sampleState.heap.length 100, Event.read 0 0 100,
           Event.write sampleState.heap.length 0 100,
           Event.alloc (sampleState.heap.length + 1) 99,
           Event.write (sampleState.heap.length + 1) 0 19,
           Event.free sampleState.heap.length, Event.free (sampleState.heap.length + 1)] :=
  ⟨rfl, rfl, by decide,
    copy_process_no_net_effect ⟨0, 0⟩ sampleState sampleBlock rfl rfl (by decide)⟩

/-- C7: on every state, hence every standard input, `CWE244_dummy` reaches its `free(X)`
with `X` a live block of exactly 100 zero bytes, after having passed `X` to the duplication
routine (the `read` of block `X` in the log) and before the single `free` of `X` that ends
the call; `X[i]` reads as the zero byte for every `i < 100` at that moment. -/
theorem CWE244_dummy_clears_before_free (s : State) :
    ∃ s1 s2, CWE244_dummy_body s = .ok (⟨s.heap.length, 0⟩, s1) ∧
      s1.heap[s.heap.length]? = some ⟨true, List.replicate 100 (some 0)⟩ ∧
      (∀ i, i < 100 → load ⟨s.heap.length, 0⟩ i s1 = some 0) ∧
      free ⟨s.heap.length, 0⟩ s1 = .ok s2 ∧ CWE244_dummy s = .ok s2 ∧
      s2.heap[s.heap.length]? = some ⟨false, List.replicate 100 (some 0)⟩ ∧
      (∃ k, 1 ≤ k ∧ k ≤ 100 ∧
        s2.trace = s.trace ++
          ([Event.alloc s.heap.length 100, Event.write s.heap.length 0 k,
            Event.alloc (s.heap.length + 1) 100, Event.read s.heap.length 0 100,
            Event.write (s.heap.length + 1) 0 100, Event.alloc (s.heap.length + 2) 99,
            Event.write (s.heap.length + 2) 0 19,
            Event.free (s.heap.length + 1), Event.free (s.heap.length + 2)]
            ++ (List.range 100).map (fun j => Event.write s.heap.length j 1)
            ++ [Event.free s.heap.length])) ∧
      freeCount (s2.trace.drop s.trace.length) s.heap.length = 1 := by
  obtain ⟨k, hk1, hk2, hk⟩ := readEvents_shape s.heap.length s.stdin
  have htrace : (stateAfterDummy s).trace = s.trace ++
      ([Event.alloc s.heap.length 100, Event.write s.heap.length 0 k,
        Event.alloc (s.heap.length + 1) 100, Event.read s.heap.length 0 100,
        Event.write (s.heap.length + 1) 0 100, Event.alloc (s.heap.length + 2) 99,
        Event.write (s.heap.length + 2) 0 19,
        Event.free (s.heap.length + 1), Event.free (s.heap.length + 2)]
        ++ (List.range 100).map (fun j => Event.write s.heap.length j 1)
        ++ [Event.free s.heap.length]) := by
    simp only [stateAfterDummy, stateBeforeFree, hk, zeroEvents_base, copyEvents,
      List.append_assoc, List.cons_append, List.nil_append]
  refine ⟨stateBeforeFree s, stateAfterDummy s, CWE244_dummy_body_ok s,
    getElem?_append_cons_length _ _ _, ?_, free_stateBeforeFree s, CWE244_dummy_ok s,
    getElem?_append_cons_length _ _ _, ⟨k, hk1, hk2, ?_⟩, ?_⟩
  · intro i hi
    refine load_zero_of_block (b := ⟨true, List.replicate 100 (some 0)⟩)
      (getElem?_append_cons_length _ _ _) rfl ?_ ?_
    · simp only [List.length_replicate]; omega
    · simp only [List.getElem?_replicate]
      rw [if_pos (by omega)]
  · exact htrace
  · rw [htrace, List.drop_left]
    have hz : List.count (Event.free s.heap.length)
        ((List.range 100).map (fun j => Event.write s.heap.length j 1)) = 0 := by
      rw [List.count_eq_zero]
      simp
    simp [freeCount, List.count_append, List.count_cons, hz]

/-- C8: on every standard input the run completes without a fault, makes exactly four
allocations (`globalVar`, `X`, `Y_deepcp` of 100 bytes and `other` of 99), frees each of them
exactly once, never reads, writes or frees a block after its `free` (so no alias of `X` is
used after `free(X)`), and leaves no block live. -/
theorem main_allocation_discipline (fuel : Nat) (h : 1 ≤ fuel) (input : List Nat) :
    ∃ o, main fuel (State.init input) = .ok o ∧
      allocations o.final.trace = [(0, 100), (1, 100), (2, 100), (3, 99)] ∧
      freeCount o.final.trace 0 = 1 ∧ freeCount o.final.trace 1 = 1 ∧
      freeCount o.final.trace 2 = 1 ∧ freeCount o.final.trace 3 = 1 ∧
      noUseAfterFree o.final.trace = true ∧
      o.final.heap.length = 4 ∧ liveBlocks o.final = [] := by
  obtain ⟨k, _, _, hk⟩ := runTrace_eq input
  obtain ⟨h1, h2, h3, h4, h5, h6⟩ := discipline_traceWith k
  refine ⟨_, main_ok fuel h input, ?_, ?_, ?_, ?_, ?_, ?_, rfl, rfl⟩
  · show allocations (runTrace input) = _
    rw [hk]; exact h1
  · show freeCount (runTrace input) 0 = 1
    rw [hk]; exact h2
  · show freeCount (runTrace input) 1 = 1
    rw [hk]; exact h3
  · show freeCount (runTrace input) 2 = 1
    rw [hk]; exact h4
  · show freeCount (runTrace input) 3 = 1
    rw [hk]; exact h5
  · show noUseAfterFree (runTrace input) = true
    rw [hk]; exact h6

/-- C8, on the line `hello` with fuel 1. -/
theorem main_allocation_discipline_witness :
    1 ≤ 1 ∧ ∃ o, main 1 (State.init helloLine) = .ok o ∧
      allocations o.final.trace = [(0, 100), (1, 100), (2, 100), (3, 99)] ∧
      freeCount o.final.trace 0 = 1 ∧ freeCount o.final.trace 1 = 1 ∧
      freeCount o.final.trace 2 = 1 ∧ freeCount o.final.trace 3 = 1 ∧
      noUseAfterFree o.final.trace = true ∧
      o.final.heap.length = 4 ∧ liveBlocks o.final = [] :=
  ⟨by decide, main_allocation_discipline 1 (by decide) helloLine⟩

/-- C9: from `d = e = f = 0` the `if` takes its then-branch (`add(0,2,0) = 2`), the `while`
body is never entered, the `do` body is entered exactly once, the `for` body is never
entered (`0 < add(0,0,0)` is false), the `switch` selects case 0, and `d`, `e`, `f` are
all 0 at the return, with status 0. -/
theorem main_control_trace (fuel : Nat) (h : 1 ≤ fuel) :
    main_control fuel =
        .ok (0, { d := 0, e := 0, f := 0, marks := [Mark.ifThen, Mark.doBody, Mark.case0] }) ∧
      add 0 2 0 = 2 ∧ add 0 0 0 = 0 ∧ ¬ ((0 : Int) < add 0 0 0) :=
  ⟨main_control_ok fuel h, by decide, by decide, by decide⟩

/-- C9, with fuel 1. -/
theorem main_control_trace_witness :
    1 ≤ 1 ∧ main_control 1 =
        .ok (0, { d := 0, e := 0, f := 0, marks := [Mark.ifThen, Mark.doBody, Mark.case0] }) ∧
      add 0 2 0 = 2 ∧ add 0 0 0 = 0 ∧ ¬ ((0 : Int) < add 0 0 0) :=
  ⟨by decide, main_control_trace 1 (by decide)⟩

/-- C10: on every standard input the run completes without a fault and its heap log is the
one below, every access of which lies inside its block: the read writes `k ≤ 100` bytes at
the start of the 100-byte `X`, the copy reads 100 bytes of `X` and writes 100 bytes of the
100-byte `Y_deepcp`, the literal with its terminator is 19 bytes written into the 99-byte
`other`, and the zeroing writes one byte at each index 0..99 of `X`. -/
theorem main_accesses_in_bounds (fuel : Nat) (h : 1 ≤ fuel) (input : List Nat) :
    ∃ o k, main fuel (State.init input) = .ok o ∧ 1 ≤ k ∧ k ≤ 100 ∧
      o.final.trace =
        [Event.alloc 0 100, Event.alloc 1 100, Event.write 1 0 k,
         Event.alloc 2 100, Event.read 1 0 100, Event.write 2 0 100,
         Event.alloc 3 99, Event.write 3 0 19, Event.free 2, Event.free 3]
        ++ (List.range 100).map (fun j => Event.write 1 j 1)
        ++ [Event.free 1, Event.free 0] ∧
      allInBounds o.final.trace = true ∧
      (cstring nonSensitive).length = 19 := by
  obtain ⟨k, hk1, hk2, hk⟩ := runTrace_eq input
  refine ⟨_, k, main_ok fuel h input, hk1, hk2, hk, ?_, length_cstring_nonSensitive⟩
  show allInBounds (runTrace input) = true
  rw [hk]
  exact allInBounds_traceWith k hk2

/-- C10, on the line `hello` with fuel 1. -/
theorem main_accesses_in_bounds_witness :
    1 ≤ 1 ∧ ∃ o k, main 1 (State.init helloLine) = .ok o ∧ 1 ≤ k ∧ k ≤ 100 ∧
      o.final.trace =
        [Event.alloc 0 100, Event.alloc 1 100, Event.write 1 0 k,
         Event.alloc 2 100, Event.read 1 0 100, Event.write 2 0 100,
         Event.alloc 3 99, Event.write 3 0 19, Event.free 2, Event.free 3]
        ++ (List.range 100).map (fun j => Event.write 1 j 1)
        ++ [Event.free 1, Event.free 0] ∧
      allInBounds o.final.trace = true ∧
      (cstring nonSensitive).length = 19 :=
  ⟨by decide, main_accesses_in_bounds 1 (by decide) helloLine⟩

end ASTClimber
